import Mathlib

/-!
Verification of the core text-processing units of the
`jupyter_notebook_to_presentation` converter: the cell-command grammar
(`src/commands.rs`), the image-path scanner / wrap-image template engine /
reference relocation (`src/path.rs`), and the per-notebook page automaton
(`src/notebook.rs`).

Strings are modelled as `List Char` (the Rust code itself iterates with
`.chars()` when splicing, and all inputs of interest are ASCII, so byte
and char indices coincide).  The chumsky parser combinators used by the
source are PEG-style with backtracking `or`; each combinator pipeline is
translated into an explicit total scanning function returning the parsed
value together with the remaining input.  Combinators of the source that
can never fail (`repeated`, `take_until(end())`, `or_not`) are translated
as total functions, so the corresponding dead error variants
(`WrapError::MarkdownError`, `WrapError::SplitError`, `ParseError::Other`)
are never produced by the model, mirroring the code.
-/

namespace Jnp

/-! ## Command data model (src/commands.rs) -/

/-- `Command` from src/commands.rs. -/
inductive Command : Type where
  | NewPage
  | StartAddToPage
  | StopAddToPage
  | InjectToPage (s : String)
  | WrapImage (s : String)
  | PageClass (s : String)
deriving DecidableEq, Repr

/-- `ParseError` from src/commands.rs.  (`Other` corresponds to the
`Simple<char>` failure of the outer chumsky parser, which can never fire
because `parse_commands` is built from always-succeeding combinators.) -/
inductive ParseError : Type where
  | UnknownCommand (s : String)
  | Content (s : String)
  | MissingComma (s : String)
  | Remaining (s : String)
  | Other
deriving DecidableEq, Repr

/-- One step of Rust `str::replace` for a two-character pattern `[a, b]`
replaced by the single character `c`: all non-overlapping occurrences,
left to right. -/
def replace2 (a b c : Char) : List Char → List Char
  | [] => []
  | [x] => [x]
  | x :: y :: r =>
    if x = a ∧ y = b then c :: replace2 a b c r
    else x :: replace2 a b c (y :: r)

/-- The unescape chain applied by `parse_content` in src/commands.rs:
`.replace("\\[","[").replace("\\]","]").replace("\\n","\n")
.replace("\\\"","\"").replace("\\'","'")`, innermost (leftmost in the
Rust chain) first. -/
def unescape_content (l : List Char) : List Char :=
  replace2 '\\' '\'' '\''
    (replace2 '\\' '"' '"'
      (replace2 '\\' 'n' '\n'
        (replace2 '\\' ']' ']'
          (replace2 '\\' '[' '[' l))))

/-- A single left-to-right unescape pass: each escape sequence among
`\[`, `\]`, `\n`, `\"`, `\'` is rewritten once and scanning resumes
after the substituted character, so no character is unescaped twice. -/
def unescape_once : List Char → List Char
  | [] => []
  | c :: r =>
    if c = '\\' then
      match r with
      | [] => ['\\']
      | c2 :: r2 =>
        if c2 = '[' then '[' :: unescape_once r2
        else if c2 = ']' then ']' :: unescape_once r2
        else if c2 = 'n' then '\n' :: unescape_once r2
        else if c2 = '"' then '"' :: unescape_once r2
        else if c2 = '\'' then '\'' :: unescape_once r2
        else '\\' :: unescape_once (c2 :: r2)
    else c :: unescape_once r

/-- Every backslash in the list starts one of the five escape sequences
`\[`, `\]`, `\n`, `\"`, `\'`. -/
def esc_ok : List Char → Bool
  | [] => true
  | c :: r =>
    if c = '\\' then
      match r with
      | [] => false
      | c2 :: r2 =>
        ((c2 == '[') || (c2 == ']') || (c2 == 'n') || (c2 == '"') || (c2 == '\'')) && esc_ok r2
    else esc_ok r

/-- A payload is valid when every backslash starts one of the five escape
sequences and every bracket character occurs only as an escape target
(i.e. immediately after a backslash). -/
def valid_payload : List Char → Bool
  | [] => true
  | c :: r =>
    if c = '\\' then
      match r with
      | [] => false
      | c2 :: r2 =>
        ((c2 == '[') || (c2 == ']') || (c2 == 'n') || (c2 == '"') || (c2 == '\'')) && valid_payload r2
    else (c != '[') && (c != ']') && valid_payload r

/-- The `take_until(none_of('\\').then(just('[').or(just(']'))).rewind())`
part of `parse_content`: scan for the first position holding a
non-backslash character immediately followed by `[` or `]`; return the
skipped prefix and the input from that position on.  Fails when no such
position exists. -/
def scan_content : List Char → Option (List Char × List Char)
  | [] => none
  | [_] => none
  | a :: b :: r =>
    if a ≠ '\\' ∧ (b = '[' ∨ b = ']') then some ([], a :: b :: r)
    else
      match scan_content (b :: r) with
      | some (pre, rest) => some (a :: pre, rest)
      | none => none

/-- `parse_content` from src/commands.rs: a bracketed payload.  The outer
`or_not` makes the parser total: on failure it consumes nothing and
yields `none`.  On success the payload is the scanned text with the
single chained unescape applied. -/
def parse_content (l : List Char) : Option String × List Char :=
  match l with
  | '[' :: rest =>
    if rest.head? = some ']' then (some "", rest.tail)
    else
      match scan_content rest with
      | some (pre, a :: b :: r3) =>
        if b = ']' then (some (String.mk (unescape_content (pre ++ [a]))), r3)
        else (none, '[' :: rest)
      | _ => (none, '[' :: rest)
  | l => (none, l)

/-- chumsky `just` for a literal character sequence. -/
def just_str : List Char → List Char → Option (List Char)
  | [], l => some l
  | _ :: _, [] => none
  | p :: ps, c :: cs => if c = p then just_str ps cs else none

/-- chumsky `padded`'s whitespace skipping. -/
def drop_ws (l : List Char) : List Char :=
  l.dropWhile Char.isWhitespace

/-- Rust `str::trim` (leading and trailing whitespace removed). -/
def trim_chars (l : List Char) : List Char :=
  ((l.dropWhile Char.isWhitespace).reverse.dropWhile Char.isWhitespace).reverse

/-- Rust `str::trim_end`. -/
def trim_end_chars (l : List Char) : List Char :=
  (l.reverse.dropWhile Char.isWhitespace).reverse

/-- `parse_new_page_command`: `just("new")`. -/
def parse_new_page_command (l : List Char) : Option (Command × List Char) :=
  (just_str "new".toList l).map (fun r => (Command.NewPage, r))

/-- `parse_start_add_to_page_command`: `just("start-add")`. -/
def parse_start_add_to_page_command (l : List Char) : Option (Command × List Char) :=
  (just_str "start-add".toList l).map (fun r => (Command.StartAddToPage, r))

/-- `parse_stop_add_to_page_command`: `just("stop-add")`. -/
def parse_stop_add_to_page_command (l : List Char) : Option (Command × List Char) :=
  (just_str "stop-add".toList l).map (fun r => (Command.StopAddToPage, r))

/-- `parse_inject_to_page_command`: `just("inject").then(parse_content().padded())`. -/
def parse_inject_to_page_command (l : List Char) :
    Option (Except ParseError Command × List Char) :=
  match just_str "inject".toList l with
  | none => none
  | some r =>
    let r1 := drop_ws r
    let (content, r2) := parse_content r1
    let r3 := drop_ws r2
    some (match content with
      | some s => Except.ok (Command.InjectToPage s)
      | none => Except.error (ParseError.Content "inject"), r3)

/-- `parse_wrap_image_command`: `just("image").then(parse_content().padded())`. -/
def parse_wrap_image_command (l : List Char) :
    Option (Except ParseError Command × List Char) :=
  match just_str "image".toList l with
  | none => none
  | some r =>
    let r1 := drop_ws r
    let (content, r2) := parse_content r1
    let r3 := drop_ws r2
    some (match content with
      | some s => Except.ok (Command.WrapImage s)
      | none => Except.error (ParseError.Content "image"), r3)

/-- `parse_page_class_command`: like the other payload commands but the
stored payload is additionally `trim`med. -/
def parse_page_class_command (l : List Char) :
    Option (Except ParseError Command × List Char) :=
  match just_str "class".toList l with
  | none => none
  | some r =>
    let r1 := drop_ws r
    let (content, r2) := parse_content r1
    let r3 := drop_ws r2
    some (match content with
      | some s => Except.ok (Command.PageClass (String.mk (trim_chars s.toList)))
      | none => Except.error (ParseError.Content "class"), r3)

/-- chumsky `text::ident()`: alphabetic or underscore start, then
alphanumeric or underscore continuation. -/
def parse_ident (l : List Char) : Option (String × List Char) :=
  match l with
  | [] => none
  | c :: r =>
    if c.isAlpha || c = '_' then
      some (String.mk (c :: r.takeWhile (fun x => x.isAlphanum || x = '_')),
            r.dropWhile (fun x => x.isAlphanum || x = '_'))
    else none

/-- `parse_command` from src/commands.rs: ordered alternation of the six
keyword parsers, with a bare identifier falling through to
`UnknownCommand`. -/
def parse_command (l : List Char) : Option (Except ParseError Command × List Char) :=
  match parse_new_page_command l with
  | some (c, r) => some (Except.ok c, r)
  | none =>
  match parse_start_add_to_page_command l with
  | some (c, r) => some (Except.ok c, r)
  | none =>
  match parse_stop_add_to_page_command l with
  | some (c, r) => some (Except.ok c, r)
  | none =>
  match parse_inject_to_page_command l with
  | some res => some res
  | none =>
  match parse_wrap_image_command l with
  | some res => some res
  | none =>
  match parse_page_class_command l with
  | some res => some res
  | none =>
  match parse_ident l with
  | some (name, r) => some (Except.error (ParseError.UnknownCommand name), r)
  | none => none

/-- The separator parser of `parse_commands`:
`just(';').to(Ok(())).or(take_until(end()).map(Err MissingComma)).padded()`.
It always succeeds; the fallback branch consumes the whole remaining
input. -/
def parse_separator (l : List Char) : Except ParseError Unit × List Char :=
  let l1 := drop_ws l
  match l1 with
  | ';' :: r => (Except.ok (), drop_ws r)
  | _ => (Except.error (ParseError.MissingComma (String.mk l1)), [])

/-- The `repeated` loop of `parse_commands`.  Fuel bounds the number of
iterations; every successful `parse_command` consumes at least one
character, so fuel `l.length + 1` is never exhausted. -/
def parse_commands_aux : Nat → List Char → List (Except ParseError Command) × List Char
  | 0, l => ([], l)
  | fuel + 1, l =>
    match parse_command l with
    | none => ([], l)
    | some (cmd, r) =>
      let (sep, r2) := parse_separator r
      let item : Except ParseError Command :=
        match cmd, sep with
        | Except.ok c, Except.ok _ => Except.ok c
        | Except.ok _, Except.error e => Except.error e
        | Except.error e, _ => Except.error e
      let (rest_items, r3) := parse_commands_aux fuel r2
      (item :: rest_items, r3)

/-- Rust's `collect::<Result<Vec<_>, _>>()`: first error wins. -/
def collect_results : List (Except ParseError Command) → Except ParseError (List Command)
  | [] => Except.ok []
  | Except.ok c :: rest => (collect_results rest).map (fun cs => c :: cs)
  | Except.error e :: _ => Except.error e

/-- `parse_commands` from src/commands.rs: the padded repeated command
list followed by the captured remaining text. -/
def parse_commands (l : List Char) : Except ParseError (List Command) × String :=
  let l0 := drop_ws l
  let (items, r) := parse_commands_aux (l0.length + 1) l0
  (collect_results items, String.mk r)

/-- `parse` from src/commands.rs. -/
def parse (stream : String) : Except ParseError (List Command) :=
  let (result, end_str) := parse_commands stream.toList
  match result with
  | Except.ok ok => if end_str.isEmpty then Except.ok ok else Except.error (ParseError.Remaining end_str)
  | Except.error e => Except.error e

/-! ## Image-path scanner and wrap-image engine (src/path.rs) -/

/-- `take_until(just(c))`: split at the first occurrence of `c`,
dropping it; fails when `c` does not occur. -/
def split_on (c : Char) : List Char → Option (List Char × List Char)
  | [] => none
  | x :: r =>
    if x = c then some ([], r)
    else (split_on c r).map (fun p => (x :: p.1, p.2))

/-- `duble_quote_string` from src/path.rs: a double-quoted string whose
content span (half-open, char offsets) is returned together with the
remaining input and the position after the closing quote. -/
def duble_quote_string (l : List Char) (pos : Nat) :
    Option ((List Char × Nat × Nat) × List Char × Nat) :=
  match l with
  | '"' :: r =>
    match split_on '"' r with
    | some (content, rest) =>
      some ((content, pos + 1, pos + 1 + content.length), rest, pos + 2 + content.length)
    | none => none
  | _ => none

/-- `single_quote_string` from src/path.rs. -/
def single_quote_string (l : List Char) (pos : Nat) :
    Option ((List Char × Nat × Nat) × List Char × Nat) :=
  match l with
  | '\'' :: r =>
    match split_on '\'' r with
    | some (content, rest) =>
      some ((content, pos + 1, pos + 1 + content.length), rest, pos + 2 + content.length)
    | none => none
  | _ => none

/-- The `src` attribute marker of `find_paths_in_html`:
`just("src").then(whitespace()).then(just('=')).then(whitespace())`. -/
def match_src (l : List Char) (pos : Nat) : Option (List Char × Nat) :=
  match just_str "src".toList l with
  | none => none
  | some r1 =>
    let r2 := drop_ws r1
    match r2 with
    | '=' :: r3 =>
      let r4 := drop_ws r3
      some (r4, pos + (l.length - r4.length))
    | _ => none

/-- `take_until(src)`: scan forward for the first position where the
`src =` marker parses, consuming it. -/
def find_src : List Char → Nat → Option (List Char × Nat)
  | l, pos =>
    match match_src l pos with
    | some r => some r
    | none =>
      match l with
      | [] => none
      | _ :: r => find_src r (pos + 1)

/-- `take_until(just('>').rewind())` followed by the closing `just('>')`
of the HTML element. -/
def find_gt : List Char → Nat → Option (List Char × Nat)
  | [], _ => none
  | '>' :: r, pos => some (r, pos + 1)
  | _ :: r, pos => find_gt r (pos + 1)

/-- `find_paths_in_html` from src/path.rs: `<`, then scan for `src =`,
then a quoted string (double quotes tried first), then skip to `>`. -/
def find_paths_in_html (l : List Char) (pos : Nat) :
    Option ((List Char × Nat × Nat) × List Char × Nat) :=
  match l with
  | '<' :: r =>
    match find_src r (pos + 1) with
    | none => none
    | some (r1, p1) =>
      match
        (match duble_quote_string r1 p1 with
         | some res => some res
         | none => single_quote_string r1 p1) with
      | none => none
      | some (res, r2, p2) =>
        match find_gt r2 p2 with
        | none => none
        | some (r3, p3) => some (res, r3, p3)
  | _ => none

/-- `find_path_in_markdown_image` from src/path.rs:
`![<alt>](<path>)`, returning the path and its span. -/
def find_path_in_markdown_image (l : List Char) (pos : Nat) :
    Option ((List Char × Nat × Nat) × List Char × Nat) :=
  match l with
  | '!' :: '[' :: r =>
    match split_on ']' r with
    | none => none
    | some (alt, r2) =>
      match r2 with
      | '(' :: r3 =>
        match split_on ')' r3 with
        | none => none
        | some (path, r4) =>
          let s := pos + 2 + alt.length + 2
          some ((path, s, s + path.length), r4, s + path.length + 1)
      | _ => none
  | _ => none

/-- The alternation `find_path_in_markdown_image().or(find_paths_in_html())`. -/
def find_image_element (l : List Char) (pos : Nat) :
    Option ((List Char × Nat × Nat) × List Char × Nat) :=
  match find_path_in_markdown_image l pos with
  | some res => some res
  | none => find_paths_in_html l pos

/-- `take_until` of the image-element alternation: scan forward for the
next markdown image or HTML `src` element. -/
def find_next_image : List Char → Nat → Option ((List Char × Nat × Nat) × List Char × Nat)
  | l, pos =>
    match find_image_element l pos with
    | some res => some res
    | none =>
      match l with
      | [] => none
      | _ :: r => find_next_image r (pos + 1)

/-- The `repeated` loop of `find_paths_in_markdown`.  Every successful
element consumes at least one character, so fuel `l.length + 1` is never
exhausted. -/
def find_paths_aux : Nat → List Char → Nat → List (List Char × Nat × Nat)
  | 0, _, _ => []
  | fuel + 1, l, pos =>
    match find_next_image l pos with
    | none => []
    | some (res, rest, p2) => res :: find_paths_aux fuel rest p2

/-- `find_paths_in_markdown` from src/path.rs: every image reference
(content, span start, span end) in document order.  Total: the chumsky
original is a `repeated` of `take_until`s and always succeeds. -/
def find_paths_in_markdown (l : List Char) : List (List Char × Nat × Nat) :=
  find_paths_aux (l.length + 1) l 0

/-- `WrapError` from src/path.rs.  The payloads of `ParseIntError`,
`MarkdownError` and `SplitError` (a `std` error value, resp. chumsky
error lists) are dropped; the latter two are dead variants, since the
model's scanners are total exactly like the chumsky originals. -/
inductive WrapError : Type where
  | ParseIntError
  | MarkdownError
  | SplitError
  | OutOfIndex (i len : Nat)
deriving DecidableEq, Repr

/-- Decidable equality of `Except` results, for evaluating concrete
parser outcomes. -/
instance {ε α : Type} [DecidableEq ε] [DecidableEq α] : DecidableEq (Except ε α)
  | Except.error a, Except.error b =>
    if h : a = b then .isTrue (h ▸ rfl) else .isFalse (fun hc => h (Except.error.inj hc))
  | Except.error _, Except.ok _ => .isFalse (fun hc => Except.noConfusion hc)
  | Except.ok _, Except.error _ => .isFalse (fun hc => Except.noConfusion hc)
  | Except.ok a, Except.ok b =>
    if h : a = b then .isTrue (h ▸ rfl) else .isFalse (fun hc => h (Except.ok.inj hc))

/-- Rust `str::parse::<usize>` (an optional leading `+` sign followed by
at least one ASCII digit; machine-width overflow is not modelled). -/
def parse_usize (l : List Char) : Except WrapError Nat :=
  let l' := match l with
    | '+' :: r => r
    | _ => l
  if !l'.isEmpty && l'.all Char.isDigit then
    Except.ok (l'.foldl (fun acc c => acc * 10 + (c.toNat - '0'.toNat)) 0)
  else Except.error WrapError.ParseIntError

/-- The template splitter of `wrap_image`:
`take_until('{').then(take_until('}')).repeated().then(take_until(end()))`.
Each iteration consumes its `{` and `}`, so fuel `l.length + 1` is never
exhausted.  An iteration whose `}` is missing fails and backtracks, the
loop stops, and the whole remaining text becomes the trailing part. -/
def split_template_fuel : Nat → List Char → List (List Char × List Char) × List Char
  | 0, l => ([], l)
  | fuel + 1, l =>
    match split_on '{' l with
    | none => ([], l)
    | some (left, rest) =>
      match split_on '}' rest with
      | none => ([], l)
      | some (mid, rest2) =>
        let (s, e) := split_template_fuel fuel rest2
        ((left, mid) :: s, e)

/-- The template splitter at its call-site fuel. -/
def split_template (l : List Char) : List (List Char × List Char) × List Char :=
  split_template_fuel (l.length + 1) l

/-- The enumerated substitution fold of `wrap_image`: the `i`-th
placeholder (counting all placeholders) uses index `i` when its middle
is empty, otherwise the parsed explicit index; each resolved index must
be below the number of discovered paths. -/
def build_start (paths : List (List Char)) : Nat → List (List Char × List Char) →
    Except WrapError (List Char)
  | _, [] => Except.ok []
  | i, (left, mid) :: rest =>
    match (if mid.isEmpty then Except.ok i else parse_usize mid) with
    | Except.error e => Except.error e
    | Except.ok idx =>
      if idx < paths.length then
        match build_start paths (i + 1) rest with
        | Except.error e => Except.error e
        | Except.ok tail => Except.ok (left ++ paths.getD idx [] ++ tail)
      else Except.error (WrapError.OutOfIndex idx paths.length)

/-- Claim-side description of the index a placeholder receives: a `{}`
placeholder in overall position `j` (counting all placeholders in
document order) receives the auto index `j`; an explicit `{N}` receives
`N` (0 when the number fails to parse, a case excluded by the theorems'
hypotheses). -/
def resolved_index (j : Nat) (mid : List Char) : Nat :=
  if mid.isEmpty then j
  else
    match parse_usize mid with
    | Except.ok n => n
    | Except.error _ => 0

/-- `wrap_image` from src/path.rs. -/
def wrap_image (markdown wrap : List Char) : Except WrapError (List Char) :=
  let paths := (find_paths_in_markdown markdown).map (fun x => x.1)
  let (splits, end_part) := split_template wrap
  match build_start paths 0 splits with
  | Except.error e => Except.error e
  | Except.ok start => Except.ok (start ++ end_part)

/-- `wrap_image` on `String`s. -/
def wrap_image_str (markdown wrap : String) : Except WrapError String :=
  (wrap_image markdown.toList wrap.toList).map String.mk

/-! ## Path relocation (src/path.rs).  `path_parent`, `path_components`
and `path_join` model the Rust standard library's `Path::parent`,
`Path::iter` and `Path::join` for slash-separated paths without trailing
separators (the only shape this program feeds them). -/

/-- Index of the last `/` in the list, if any. -/
def last_slash : List Char → Option Nat
  | [] => none
  | c :: r =>
    match last_slash r with
    | some i => some (i + 1)
    | none => if c = '/' then some 0 else none

/-- Split a character list at every occurrence of `c` (Rust
`str::split`): `n` separators yield `n + 1` pieces. -/
def split_on_char (c : Char) : List Char → List (List Char)
  | [] => [[]]
  | x :: r =>
    match split_on_char c r with
    | [] => if x = c then [[], []] else [[x]]
    | h :: t => if x = c then [] :: h :: t else (x :: h) :: t

/-- Rust `Path::parent`: strip the final component; `none` for the empty
path and for the bare root. -/
def path_parent (p : String) : Option String :=
  if p.toList.isEmpty then none
  else
    match last_slash p.toList with
    | none => some ""
    | some i =>
      if i = 0 then (if p.toList.length = 1 then none else some "/")
      else some (String.mk (p.toList.take i))

/-- Rust `Path::iter` components (the root `/` counts as a component). -/
def path_components (p : String) : List String :=
  let parts := ((split_on_char '/' p.toList).filter (fun s => !s.isEmpty)).map String.mk
  if p.toList.head? = some '/' then "/" :: parts else parts

/-- Rust `Path::join`: an absolute right side replaces the left side. -/
def path_join (a b : String) : String :=
  if b.toList.head? = some '/' then b
  else if a.toList.isEmpty then b
  else a ++ "/" ++ b

/-- `generate_new_path` from src/path.rs: one `..` per component of the
output path's parent, then the notebook's parent, then the element path. -/
def generate_new_path (output_path notebook_path element_path : String) : Option String :=
  match path_parent output_path with
  | none => none
  | some op =>
    match path_parent notebook_path with
    | none => none
    | some np =>
      let dots := (path_components op).map (fun _ => "..")
      let base := dots.foldl path_join ""
      some (path_join (path_join base np) element_path)

/-- The skip test of `replace_paths`: absolute paths and absolute URLs
are left untouched. -/
def is_skipped (p : List Char) : Bool :=
  p.head? == some '/' || "http://".toList.isPrefixOf p || "https://".toList.isPrefixOf p

/-- The reversed-order splicing loop of `replace_paths`. -/
def replace_paths_go (output_path notebook_path : String) :
    List (List Char × Nat × Nat) → List Char → Option (List Char)
  | [], md => some md
  | (path, s, e) :: rest, md =>
    if is_skipped path then replace_paths_go output_path notebook_path rest md
    else
      match generate_new_path output_path notebook_path (String.mk path) with
      | none => none
      | some np =>
        replace_paths_go output_path notebook_path rest
          (md.take s ++ np.toList ++ md.drop e)

/-- `replace_paths` from src/path.rs on char lists. -/
def replace_paths_list (output_path notebook_path : String) (markdown : List Char) :
    Option (List Char) :=
  replace_paths_go output_path notebook_path
    (find_paths_in_markdown markdown).reverse markdown

/-- `replace_paths` from src/path.rs. -/
def replace_paths (output_path notebook_path : String) (markdown : String) : Option String :=
  (replace_paths_list output_path notebook_path markdown.toList).map String.mk

/-! ## Notebook cells and the page automaton (src/notebook.rs) -/

/-- `Metadata` from src/notebook.rs. -/
structure Metadata : Type where
  tags : Option (List String)
deriving DecidableEq, Repr

/-- `Output` from src/notebook.rs. -/
inductive Output : Type where
  | Error (ename evalue : String)
  | Stream (text : List String)
  | Other
deriving DecidableEq, Repr

/-- `Cell` from src/notebook.rs. -/
structure Cell : Type where
  cell_type : String
  metadata : Metadata
  outputs : Option (List Output)
  source : List String
deriving DecidableEq, Repr

/-- `Notebook` from src/notebook.rs (the `path` field is the
deserialization-skipped file path). -/
structure Notebook : Type where
  cells : List Cell
  path : String
deriving DecidableEq, Repr

/-- `Cell::get_source`: markdown joins the lines, code wraps them in a
Python fence, anything else is an error (errors are modelled by their
`anyhow` message strings). -/
def get_source (cell : Cell) : Except String String :=
  if cell.cell_type = "markdown" then Except.ok (String.join cell.source)
  else if cell.cell_type = "code" then
    Except.ok ("```Python\n" ++ String.mk (trim_end_chars (String.join cell.source).toList) ++ "\n```")
  else Except.error ("Cell type '" ++ cell.cell_type ++ "' is currently not supported.")

/-- First `Stream` output of a cell. -/
def first_stream : List Output → Option (List String)
  | [] => none
  | Output.Stream text :: _ => some text
  | _ :: r => first_stream r

/-- First `Error` output of a cell. -/
def first_error : List Output → Option (String × String)
  | [] => none
  | Output.Error ename evalue :: _ => some (ename, evalue)
  | _ :: r => first_error r

/-- `Cell::get_stream`. -/
def get_stream (cell : Cell) : Except String String :=
  match cell.outputs with
  | none => Except.error "No output in cell."
  | some outputs =>
    match first_stream outputs with
    | some text => Except.ok ("```\n" ++ String.mk (trim_end_chars (String.join text).toList) ++ "\n```")
    | none => Except.error "No stream in Cell"

/-- `Cell::get_error`. -/
def get_error (cell : Cell) : Except String String :=
  match cell.outputs with
  | none => Except.error "No output in cell."
  | some outputs =>
    match first_error outputs with
    | some (ename, evalue) => Except.ok ("```\n" ++ ename ++ ": " ++ evalue ++ "\n```")
    | none => Except.error "No error in Cell"

/-- `Tag` from src/notebook.rs. -/
inductive Tag : Type where
  | NewPage
  | AddToPage
  | AddStreamToPage
  | AddErrorToPage
  | InjectToPage (s : String)
  | WrapImage (s : String)
  | PageClass (s : String)
deriving DecidableEq, Repr

/-- `TagError` from src/notebook.rs. -/
inductive TagError : Type where
  | UnknownTag (s : String)
  | NoClosedBrackets
deriving DecidableEq, Repr

/-- Rust `str::starts_with` for a literal prefix. -/
def starts_with (pre : String) (s : String) : Bool :=
  pre.toList.isPrefixOf s.toList

/-- Rust `str::ends_with` for a single character. -/
def ends_with_char (c : Char) (s : String) : Bool :=
  s.toList.getLast? == some c

/-- `TryFrom<&str> for Tag` (the byte slices of the source are char
slices here; all tag keywords are ASCII). -/
def tag_try_from (value : String) : Except TagError Tag :=
  if value = "new-page" then Except.ok Tag.NewPage
  else if value = "add-to-page" then Except.ok Tag.AddToPage
  else if value = "add-stream-to-page" then Except.ok Tag.AddStreamToPage
  else if value = "add-error-to-page" then Except.ok Tag.AddErrorToPage
  else if starts_with "inject-to-page" value then
    if starts_with "inject-to-page[" value && ends_with_char ']' value then
      Except.ok (Tag.InjectToPage (String.mk ((value.toList.drop 15).dropLast)))
    else Except.error TagError.NoClosedBrackets
  else if starts_with "wrap-image" value then
    if starts_with "wrap-image[" value && ends_with_char ']' value then
      Except.ok (Tag.WrapImage (String.mk ((value.toList.drop 11).dropLast)))
    else Except.error TagError.NoClosedBrackets
  else if starts_with "class" value then
    if starts_with "class[" value && ends_with_char ']' value then
      Except.ok (Tag.PageClass (String.mk ((value.toList.drop 6).dropLast)))
    else Except.error TagError.NoClosedBrackets
  else Except.error (TagError.UnknownTag value)

/-- `Vec::last_mut` mutation: apply `f` to the last element, if any. -/
def update_last (f : String → String) : List String → List String
  | [] => []
  | [x] => [f x]
  | x :: y :: r => x :: update_last f (y :: r)

/-- One tag application of `Notebook::into_pages`.  The state is the
pages vector together with the pending page class.  Logged-and-skipped
failures leave the state unchanged; only the `WrapImage` arm's
`cell.get_source()?` propagates an error. -/
def apply_tag (cell : Cell) (st : List String × Option String) :
    Tag → Except String (List String × Option String)
  | Tag.NewPage =>
    let pages := st.1
    let pages' := match st.2 with
      | some cls => if pages.isEmpty then pages
          else update_last (fun last => "class: " ++ cls ++ "\n" ++ last) pages
      | none => pages
    Except.ok (pages' ++ [""], none)
  | Tag.AddToPage =>
    if st.1.isEmpty then Except.ok st
    else
      match get_source cell with
      | Except.ok text => Except.ok (update_last (fun last => last ++ "\n" ++ text) st.1, st.2)
      | Except.error _ => Except.ok st
  | Tag.AddStreamToPage =>
    if st.1.isEmpty then Except.ok st
    else
      match get_stream cell with
      | Except.ok text => Except.ok (update_last (fun last => last ++ "\n" ++ text) st.1, st.2)
      | Except.error _ => Except.ok st
  | Tag.AddErrorToPage =>
    if st.1.isEmpty then Except.ok st
    else
      match get_error cell with
      | Except.ok text => Except.ok (update_last (fun last => last ++ "\n" ++ text) st.1, st.2)
      | Except.error _ => Except.ok st
  | Tag.InjectToPage text =>
    if st.1.isEmpty then Except.ok st
    else Except.ok (update_last (fun last => last ++ "\n" ++ text) st.1, st.2)
  | Tag.WrapImage wrap =>
    match get_source cell with
    | Except.error e => Except.error e
    | Except.ok markdown =>
      if st.1.isEmpty then Except.ok st
      else
        match wrap_image markdown.toList wrap.toList with
        | Except.ok ok =>
          Except.ok (update_last (fun last => last ++ "\n" ++ String.mk ok) st.1, st.2)
        | Except.error _ => Except.ok st
  | Tag.PageClass cls => Except.ok (st.1, some cls)

/-- Process all tags of one cell (unknown or malformed tags are logged
and skipped). -/
def process_tags (cell : Cell) (st : List String × Option String) :
    Except String (List String × Option String) :=
  match cell.metadata.tags with
  | none => Except.ok st
  | some tags =>
    tags.foldlM (fun st tag =>
      match tag_try_from tag with
      | Except.ok t => apply_tag cell st t
      | Except.error _ => Except.ok st) st

/-- `Notebook::into_pages`: fold the cells over the page state, join the
pages with the page separator, and relocate the image references. -/
def into_pages (nb : Notebook) (output_path : String) : Except String String :=
  match nb.cells.foldlM (fun st cell => process_tags cell st) (([] : List String), (none : Option String)) with
  | Except.error e => Except.error e
  | Except.ok (pages, _) =>
    let joined := String.intercalate "\n\n---\n" pages
    match replace_paths output_path nb.path joined with
    | none =>
      Except.error ("Either the output path \"" ++ output_path ++
        "\" or the notebook path \"" ++ nb.path ++ "\" has no parent.")
    | some s => Except.ok s

/-- A markdown cell with no tags, used as the irrelevant cell argument of
`apply_tag` in concrete statements. -/
def sample_cell : Cell :=
  { cell_type := "markdown", metadata := { tags := none }, outputs := none, source := [] }
/-! ## Helper lemmas -/

theorem update_last_append (f : String → String) (ps : List String) (p : String) :
    update_last f (ps ++ [p]) = ps ++ [f p] := by
  induction ps with
  | nil => rfl
  | cons x ps ih =>
    rcases hq : ps ++ [p] with _ | ⟨y, ys⟩
    · exact absurd hq (by simp)
    · calc update_last f ((x :: ps) ++ [p]) = update_last f (x :: y :: ys) := by
            rw [List.cons_append, hq]
        _ = x :: update_last f (y :: ys) := rfl
        _ = x :: update_last f (ps ++ [p]) := by rw [hq]
        _ = x :: (ps ++ [f p]) := by rw [ih]
        _ = (x :: ps) ++ [f p] := by rw [List.cons_append]

theorem replace_paths_go_skip (out nb : String) (L : List (List Char × Nat × Nat))
    (md : List Char) (h : ∀ r ∈ L, is_skipped r.1 = true) :
    replace_paths_go out nb L md = some md := by
  induction L with
  | nil => rfl
  | cons x rest ih =>
    obtain ⟨path, s, e⟩ := x
    have hx := h _ (List.mem_cons_self _ _)
    simp only [replace_paths_go, hx, if_pos]
    exact ih (fun r hr => h r (List.mem_cons_of_mem _ hr))

theorem split_on_of_not_mem (c : Char) (l : List Char) (h : c ∉ l) : split_on c l = none := by
  induction l with
  | nil => rfl
  | cons x r ih =>
    rw [List.mem_cons, not_or] at h
    simp [split_on, Ne.symm h.1, ih h.2]

/-- `build_start` substitutes, into the placeholder enumerated `j`, the
path at `resolved_index j mid`, whenever every placeholder's index
parses and is in range. -/
theorem build_start_resolves (paths : List (List Char))
    (splits : List (List Char × List Char)) (i : Nat)
    (h : ∀ x ∈ List.enumFrom i splits,
      (if x.2.2.isEmpty then Except.ok x.1 else parse_usize x.2.2) =
          Except.ok (resolved_index x.1 x.2.2) ∧
        resolved_index x.1 x.2.2 < paths.length) :
    build_start paths i splits =
      Except.ok (((List.enumFrom i splits).map
        (fun x => x.2.1 ++ paths.getD (resolved_index x.1 x.2.2) [])).flatten) := by
  induction splits generalizing i with
  | nil => rfl
  | cons pair rest ih =>
    obtain ⟨left, mid⟩ := pair
    have h0 := h (i, (left, mid)) (by rw [List.enumFrom_cons]; exact List.mem_cons_self _ _)
    have htail : ∀ x ∈ List.enumFrom (i + 1) rest,
        (if x.2.2.isEmpty then Except.ok x.1 else parse_usize x.2.2) =
            Except.ok (resolved_index x.1 x.2.2) ∧
          resolved_index x.1 x.2.2 < paths.length := by
      intro x hx
      exact h x (by rw [List.enumFrom_cons]; exact List.mem_cons_of_mem _ hx)
    simp only [build_start, h0.1]
    rw [if_pos h0.2]
    rw [ih (i + 1) htail]
    rw [List.enumFrom_cons, List.map_cons, List.flatten_cons]

theorem replace2_cons_ne (a b c x : Char) (l : List Char) (h : x ≠ a) :
    replace2 a b c (x :: l) = x :: replace2 a b c l := by
  cases l with
  | nil => rfl
  | cons y r => simp [replace2, h]

theorem replace2_cons₂ (a b c x y : Char) (l : List Char) (h : ¬(x = a ∧ y = b)) :
    replace2 a b c (x :: y :: l) = x :: replace2 a b c (y :: l) := by
  simp only [replace2, if_neg h]

theorem replace2_head (a b c : Char) (l : List Char) :
    replace2 a b c (a :: b :: l) = c :: replace2 a b c l := by
  simp [replace2]

/-- The unescape chain commutes with a non-backslash head character. -/
theorem unescape_content_cons (x : Char) (l : List Char) (h : x ≠ '\\') :
    unescape_content (x :: l) = x :: unescape_content (l) := by
  unfold unescape_content
  rw [replace2_cons_ne '\\' '[' '[' x l h]
  rw [replace2_cons_ne '\\' ']' ']' x _ h]
  rw [replace2_cons_ne '\\' 'n' '\n' x _ h]
  rw [replace2_cons_ne '\\' '"' '"' x _ h]
  rw [replace2_cons_ne '\\' '\'' '\'' x _ h]

theorem unescape_content_esc_lb (l : List Char) :
    unescape_content ('\\' :: '[' :: l) = '[' :: unescape_content l := by
  unfold unescape_content
  rw [replace2_head '\\' '[' '[' l]
  rw [replace2_cons_ne '\\' ']' ']' '[' _ (by decide)]
  rw [replace2_cons_ne '\\' 'n' '\n' '[' _ (by decide)]
  rw [replace2_cons_ne '\\' '"' '"' '[' _ (by decide)]
  rw [replace2_cons_ne '\\' '\'' '\'' '[' _ (by decide)]

theorem unescape_content_esc_rb (l : List Char) :
    unescape_content ('\\' :: ']' :: l) = ']' :: unescape_content l := by
  unfold unescape_content
  rw [replace2_cons₂ '\\' '[' '[' '\\' ']' l (by decide)]
  rw [replace2_cons_ne '\\' '[' '[' ']' l (by decide)]
  rw [replace2_head '\\' ']' ']' _]
  rw [replace2_cons_ne '\\' 'n' '\n' ']' _ (by decide)]
  rw [replace2_cons_ne '\\' '"' '"' ']' _ (by decide)]
  rw [replace2_cons_ne '\\' '\'' '\'' ']' _ (by decide)]

theorem unescape_content_esc_n (l : List Char) :
    unescape_content ('\\' :: 'n' :: l) = '\n' :: unescape_content l := by
  unfold unescape_content
  rw [replace2_cons₂ '\\' '[' '[' '\\' 'n' l (by decide)]
  rw [replace2_cons_ne '\\' '[' '[' 'n' l (by decide)]
  rw [replace2_cons₂ '\\' ']' ']' '\\' 'n' _ (by decide)]
  rw [replace2_cons_ne '\\' ']' ']' 'n' _ (by decide)]
  rw [replace2_head '\\' 'n' '\n' _]
  rw [replace2_cons_ne '\\' '"' '"' '\n' _ (by decide)]
  rw [replace2_cons_ne '\\' '\'' '\'' '\n' _ (by decide)]

theorem unescape_content_esc_dq (l : List Char) :
    unescape_content ('\\' :: '"' :: l) = '"' :: unescape_content l := by
  unfold unescape_content
  rw [replace2_cons₂ '\\' '[' '[' '\\' '"' l (by decide)]
  rw [replace2_cons_ne '\\' '[' '[' '"' l (by decide)]
  rw [replace2_cons₂ '\\' ']' ']' '\\' '"' _ (by decide)]
  rw [replace2_cons_ne '\\' ']' ']' '"' _ (by decide)]
  rw [replace2_cons₂ '\\' 'n' '\n' '\\' '"' _ (by decide)]
  rw [replace2_cons_ne '\\' 'n' '\n' '"' _ (by decide)]
  rw [replace2_head '\\' '"' '"' _]
  rw [replace2_cons_ne '\\' '\'' '\'' '"' _ (by decide)]

theorem unescape_content_esc_sq (l : List Char) :
    unescape_content ('\\' :: '\'' :: l) = '\'' :: unescape_content l := by
  unfold unescape_content
  rw [replace2_cons₂ '\\' '[' '[' '\\' '\'' l (by decide)]
  rw [replace2_cons_ne '\\' '[' '[' '\'' l (by decide)]
  rw [replace2_cons₂ '\\' ']' ']' '\\' '\'' _ (by decide)]
  rw [replace2_cons_ne '\\' ']' ']' '\'' _ (by decide)]
  rw [replace2_cons₂ '\\' 'n' '\n' '\\' '\'' _ (by decide)]
  rw [replace2_cons_ne '\\' 'n' '\n' '\'' _ (by decide)]
  rw [replace2_cons₂ '\\' '"' '"' '\\' '\'' _ (by decide)]
  rw [replace2_cons_ne '\\' '"' '"' '\'' _ (by decide)]
  rw [replace2_head '\\' '\'' '\'' _]

theorem unescape_once_cons (x : Char) (l : List Char) (h : x ≠ '\\') :
    unescape_once (x :: l) = x :: unescape_once l := by
  cases l with
  | nil => rw [unescape_once.eq_2, if_neg h]
  | cons y r => rw [unescape_once.eq_3, if_neg h]

theorem esc_ok_cons_ne (c : Char) (r : List Char) (h : c ≠ '\\') :
    esc_ok (c :: r) = esc_ok r := by
  cases r with
  | nil => rw [esc_ok.eq_2, if_neg h]
  | cons y s => rw [esc_ok.eq_3, if_neg h]

theorem valid_payload_bs (c2 : Char) (r2 : List Char) :
    valid_payload ('\\' :: c2 :: r2) =
      (((c2 == '[') || (c2 == ']') || (c2 == 'n') || (c2 == '"') || (c2 == '\'')) &&
        valid_payload r2) := by
  rw [valid_payload.eq_3, if_pos rfl]

theorem valid_payload_cons_ne (c : Char) (r : List Char) (h : c ≠ '\\') :
    valid_payload (c :: r) = ((c != '[') && (c != ']') && valid_payload r) := by
  cases r with
  | nil => rw [valid_payload.eq_2, if_neg h]
  | cons y s => rw [valid_payload.eq_3, if_neg h]

theorem valid_payload_head (c : Char) (r : List Char) (h : valid_payload (c :: r) = true) :
    c ≠ '[' ∧ c ≠ ']' := by
  by_cases hc : c = '\\'
  · subst hc; exact ⟨by decide, by decide⟩
  · rw [valid_payload_cons_ne c r hc] at h
    simp only [Bool.and_eq_true, bne_iff_ne, ne_eq] at h
    exact ⟨h.1.1, h.1.2⟩

theorem valid_payload_tail_bs (c2 : Char) (r2 : List Char)
    (h : valid_payload ('\\' :: c2 :: r2) = true) :
    c2 ≠ '\\' ∧ valid_payload r2 = true := by
  rw [valid_payload_bs] at h
  simp only [Bool.and_eq_true, Bool.or_eq_true, beq_iff_eq] at h
  refine ⟨?_, h.2⟩
  rcases h.1 with (((rfl | rfl) | rfl) | rfl) | rfl <;> decide

/-- On a valid payload followed by the closing `]`, the bracket scanner
of `parse_content` stops exactly at the pair formed by the payload's
last character and the closing bracket, so the captured text is the
whole payload. -/
theorem scan_content_valid (t : List Char) (p : List Char) (hv : valid_payload p = true)
    (hne : p ≠ []) :
    ∃ q a, p = q ++ [a] ∧ a ≠ '\\' ∧
      scan_content (p ++ ']' :: t) = some (q, a :: ']' :: t) := by
  induction p using valid_payload.induct with
  | case1 => exact absurd rfl hne
  | case2 => simp [valid_payload] at hv
  | case3 c2 r2 ih =>
    obtain ⟨hc2ne, hvr2⟩ := valid_payload_tail_bs c2 r2 hv
    cases r2 with
    | nil =>
      refine ⟨['\\'], c2, rfl, hc2ne, ?_⟩
      simp only [List.cons_append, List.nil_append]
      rw [scan_content.eq_3, if_neg (by simp)]
      rw [scan_content.eq_3, if_pos ⟨hc2ne, Or.inr rfl⟩]
    | cons y r2' =>
      obtain ⟨q', a, hqa, ha, hs⟩ := ih hvr2 (by simp)
      refine ⟨'\\' :: c2 :: q', a, by rw [List.cons_append, List.cons_append, ← hqa], ha, ?_⟩
      have hy := valid_payload_head y r2' hvr2
      simp only [List.cons_append]
      rw [scan_content.eq_3, if_neg (by simp)]
      rw [scan_content.eq_3, if_neg (by rintro ⟨-, h | h⟩; exact hy.1 h; exact hy.2 h)]
      simp only [List.cons_append] at hs
      rw [hs]
  | case4 c2 r2 hc ih =>
    have hvr : valid_payload r2 = true := by
      rw [valid_payload_cons_ne c2 r2 hc] at hv
      simp only [Bool.and_eq_true] at hv
      exact hv.2
    cases r2 with
    | nil =>
      refine ⟨[], c2, rfl, hc, ?_⟩
      simp only [List.cons_append, List.nil_append]
      rw [scan_content.eq_3, if_pos ⟨hc, Or.inr rfl⟩]
    | cons y r2' =>
      obtain ⟨q', a, hqa, ha, hs⟩ := ih hvr (by simp)
      refine ⟨c2 :: q', a, by rw [List.cons_append, ← hqa], ha, ?_⟩
      have hy := valid_payload_head y r2' hvr
      simp only [List.cons_append]
      rw [scan_content.eq_3, if_neg (by rintro ⟨-, h | h⟩; exact hy.1 h; exact hy.2 h)]
      simp only [List.cons_append] at hs
      rw [hs]

/-- `parse_content` on a bracketed valid payload returns exactly the
payload with one unescape pass applied, consuming the whole input. -/
theorem parse_content_valid (p : List Char) (hv : valid_payload p = true) :
    parse_content ('[' :: (p ++ [']'])) = (some (String.mk (unescape_content p)), []) := by
  rcases hp : p with _ | ⟨c, r⟩
  · rfl
  · subst hp
    have hhead := valid_payload_head c r hv
    obtain ⟨q, a, hqa, ha, hs⟩ := scan_content_valid [] (c :: r) hv (by simp)
    simp only [List.cons_append]
    rw [parse_content.eq_1]
    rw [if_neg (by simp [hhead.2])]
    simp only [List.cons_append] at hs
    rw [hs, hqa]
    rfl

theorem just_str_append (pat rest : List Char) : just_str pat (pat ++ rest) = some rest := by
  induction pat with
  | nil => rfl
  | cons c cs ih => simp [just_str, ih]

/-! ## Claim theorems -/

/-- C1 (counterexample): the claim predicts that in the template `{2}{}`
the `{}` receives `references[0]` (here `"a"`, giving `"ca"`); the code
instead enumerates all placeholders, so the `{}` in overall position 1
receives `references[1]` (here `"b"`, giving `"cb"`). -/
theorem wrap_image_mixed_template_counterexample :
    wrap_image_str "![](a)![](b)![](c)" "{2}{}" = Except.ok "cb" ∧
      ("cb" : String) ≠ "ca" := ⟨rfl, by decide⟩

/-- C1 (amended): for every markdown blob and every template — in
particular templates mixing `{}` and `{N}` placeholders — whenever each
placeholder's index resolves (explicit indices parse, all indices in
range), `wrap_image` substitutes into the placeholder at overall
position `j` the reference at `resolved_index j mid`: `references[j]`
itself when the placeholder is `{}` (empty middle), so an explicit `{N}`
does consume an auto-index slot; e.g. in `{2}{}` the `{}` receives
`references[1]`. -/
theorem wrap_image_auto_index_counts_all_placeholders (md wrap : List Char)
    (h : ∀ x ∈ (split_template wrap).1.enum,
      (if x.2.2.isEmpty then Except.ok x.1 else parse_usize x.2.2) =
          Except.ok (resolved_index x.1 x.2.2) ∧
        resolved_index x.1 x.2.2 < ((find_paths_in_markdown md).map (fun x => x.1)).length) :
    wrap_image md wrap =
      Except.ok ((((split_template wrap).1.enum.map
        (fun x => x.2.1 ++
          ((find_paths_in_markdown md).map (fun x => x.1)).getD (resolved_index x.1 x.2.2) [])).flatten)
        ++ (split_template wrap).2) := by
  unfold wrap_image
  rcases hsp : split_template wrap with ⟨S, E⟩
  rw [hsp] at h
  simp only []
  rw [List.enum_eq_enumFrom] at h
  rw [build_start_resolves _ S 0 h]
  rw [List.enum_eq_enumFrom]

/-- C1 (witness): the amended theorem applied to the mixed template
`{2}{}` against a markdown blob with three image references — the
placeholders receive references 2 and then 1. -/
theorem wrap_image_auto_index_counts_all_placeholders_witness :
    (∀ x ∈ (split_template ("{2}{}".toList)).1.enum,
      (if x.2.2.isEmpty then Except.ok x.1 else parse_usize x.2.2) =
          Except.ok (resolved_index x.1 x.2.2) ∧
        resolved_index x.1 x.2.2 <
          ((find_paths_in_markdown ("![](a)![](b)![](c)".toList)).map (fun x => x.1)).length) ∧
      wrap_image ("![](a)![](b)![](c)".toList) ("{2}{}".toList) =
        Except.ok ((((split_template ("{2}{}".toList)).1.enum.map
          (fun x => x.2.1 ++
            ((find_paths_in_markdown ("![](a)![](b)![](c)".toList)).map (fun x => x.1)).getD
              (resolved_index x.1 x.2.2) [])).flatten)
          ++ (split_template ("{2}{}".toList)).2) :=
  ⟨by decide, wrap_image_auto_index_counts_all_placeholders _ _ (by decide)⟩

/-- C2 (code bug evidence): a `wrap-image` tag on a cell whose source
cannot be obtained (unsupported `cell_type`, here `"raw"`) makes
`into_pages` abort the whole document with the `get_source` error,
because the `Tag::WrapImage` arm uses `cell.get_source()?` instead of
the catch-and-log pattern of every other arm; the claim (and the code's
own error documentation) says processing continues. -/
theorem into_pages_aborts_on_unsupported_wrap_image_cell :
    into_pages
      { cells := [{ cell_type := "raw", metadata := { tags := some ["wrap-image[x]"] },
                    outputs := none, source := [] }],
        path := "nb/in.ipynb" } "pres/out.md" =
      Except.error "Cell type 'raw' is currently not supported." := rfl

/-- C3 (counterexample): with pending class `"c"` and last page
`"page"`, the new-page rewrite produces `"class: c\npage"` — a single
newline after the class line — not the claimed `"class: c\n\npage"`. -/
theorem new_page_class_prefix_counterexample :
    apply_tag sample_cell (["page"], some "c") Tag.NewPage =
        Except.ok (["class: c\npage", ""], none) ∧
      ("class: c\npage" : String) ≠ "class: c\n\npage" := ⟨rfl, by decide⟩

/-- C3 (amended): whenever a new-page tag fires while a page class is
pending and at least one page exists, the last page `P` is rewritten to
`"class: " ++ C ++ "\n" ++ P` (one newline character), the pending class
is cleared, and a new empty page is pushed. -/
theorem new_page_pending_class_single_newline_prefix (cell : Cell) (ps : List String)
    (p cls : String) :
    apply_tag cell (ps ++ [p], some cls) Tag.NewPage =
      Except.ok (ps ++ ["class: " ++ cls ++ "\n" ++ p, ""], none) := by
  set_option maxRecDepth 4000 in
  simp only [apply_tag]
  rw [if_neg (by simp)]
  rw [update_last_append]
  simp

/-- C4 (counterexample): the payload of a `class` command does not keep
its leading and trailing whitespace: `class[ x ];` stores `"x"`, not the
verbatim `" x "`. -/
theorem page_class_payload_trim_counterexample :
    parse "class[ x ];" = Except.ok [Command.PageClass "x"] ∧
      ("x" : String) ≠ " x " := ⟨rfl, by decide⟩

/-- C4 (amended): for every valid bracketed payload, `inject` and
`image` store the payload verbatim with only the escape sequences
substituted (all interior and boundary whitespace preserved), while
`class` stores the same string additionally trimmed of leading and
trailing whitespace. -/
theorem payload_whitespace_verbatim_except_class_trim (p : List Char)
    (hv : valid_payload p = true) :
    parse_inject_to_page_command ("inject".toList ++ '[' :: (p ++ [']'])) =
        some (Except.ok (Command.InjectToPage (String.mk (unescape_content p))), []) ∧
      parse_wrap_image_command ("image".toList ++ '[' :: (p ++ [']'])) =
        some (Except.ok (Command.WrapImage (String.mk (unescape_content p))), []) ∧
      parse_page_class_command ("class".toList ++ '[' :: (p ++ [']'])) =
        some (Except.ok (Command.PageClass (String.mk (trim_chars (unescape_content p)))), []) := by
  have hdw : drop_ws ('[' :: (p ++ [']'])) = '[' :: (p ++ [']']) := rfl
  refine ⟨?_, ?_, ?_⟩
  · unfold parse_inject_to_page_command
    rw [just_str_append]
    simp only [hdw, parse_content_valid p hv]
    rfl
  · unfold parse_wrap_image_command
    rw [just_str_append]
    simp only [hdw, parse_content_valid p hv]
    rfl
  · unfold parse_page_class_command
    rw [just_str_append]
    simp only [hdw, parse_content_valid p hv]
    rfl

/-- C4 (witness): the amended theorem applied to the payload
`" a \[b\] c "` (escapes plus boundary whitespace). -/
theorem payload_whitespace_verbatim_except_class_trim_witness :
    valid_payload (" a \\[b\\] c ".toList) = true ∧
      (parse_inject_to_page_command ("inject".toList ++ '[' :: (" a \\[b\\] c ".toList ++ [']'])) =
          some (Except.ok (Command.InjectToPage
            (String.mk (unescape_content (" a \\[b\\] c ".toList)))), []) ∧
        parse_wrap_image_command ("image".toList ++ '[' :: (" a \\[b\\] c ".toList ++ [']'])) =
          some (Except.ok (Command.WrapImage
            (String.mk (unescape_content (" a \\[b\\] c ".toList)))), []) ∧
        parse_page_class_command ("class".toList ++ '[' :: (" a \\[b\\] c ".toList ++ [']'])) =
          some (Except.ok (Command.PageClass
            (String.mk (trim_chars (unescape_content (" a \\[b\\] c ".toList))))), [])) :=
  ⟨by decide, payload_whitespace_verbatim_except_class_trim _ (by decide)⟩

/-- C5: on a payload whose escape sequences are among `\[`, `\]`, `\"`,
`\'` and `\n`, the chained `replace` unescape of `parse_content` equals
a single left-to-right unescape pass — every escape is rewritten exactly
once and no character is unescaped twice. -/
theorem payload_unescaped_exactly_once (l : List Char) (h : esc_ok l = true) :
    unescape_content l = unescape_once l := by
  induction l using esc_ok.induct with
  | case1 => rfl
  | case2 => simp [esc_ok] at h
  | case3 c2 r2 ih =>
    have h' : ((c2 == '[') || (c2 == ']') || (c2 == 'n') || (c2 == '"') || (c2 == '\'')) = true
        ∧ esc_ok r2 = true := by
      simpa [esc_ok] using h
    obtain ⟨hc2, hr2⟩ := h'
    rw [Bool.or_eq_true, Bool.or_eq_true, Bool.or_eq_true, Bool.or_eq_true] at hc2
    simp only [beq_iff_eq] at hc2
    rcases hc2 with (((rfl | rfl) | rfl) | rfl) | rfl
    · rw [unescape_content_esc_lb, ih hr2]; rfl
    · rw [unescape_content_esc_rb, ih hr2]; rfl
    · rw [unescape_content_esc_n, ih hr2]; rfl
    · rw [unescape_content_esc_dq, ih hr2]; rfl
    · rw [unescape_content_esc_sq, ih hr2]; rfl
  | case4 c2 r2 hc ih =>
    have hr : esc_ok r2 = true := by rw [← esc_ok_cons_ne c2 r2 hc]; exact h
    rw [unescape_content_cons _ _ hc, unescape_once_cons _ _ hc, ih hr]

/-- C5 (witness): the theorem applied to `"t \[u\] \n"`. -/
theorem payload_unescaped_exactly_once_witness :
    esc_ok ("t \\[u\\] \\n".toList) = true ∧
      unescape_content ("t \\[u\\] \\n".toList) = unescape_once ("t \\[u\\] \\n".toList) :=
  ⟨by decide, payload_unescaped_exactly_once _ (by decide)⟩

/-- C6: the command stream `"new; start-add; stop-add;"` parses to
exactly `[NewPage, StartAddToPage, StopAddToPage]` with no error of any
kind. -/
theorem parse_compact_command_sequence :
    parse "new; start-add; stop-add;" =
      Except.ok [Command.NewPage, Command.StartAddToPage, Command.StopAddToPage] := rfl

/-- C7: relocating `"./img/x.png"` for output `"pres/out.md"` and
notebook `"nb/in.ipynb"` splices `"../nb/./img/x.png"` at the
reference's span. -/
theorem replace_paths_relative_reference_example :
    replace_paths "pres/out.md" "nb/in.ipynb" "![](./img/x.png)" =
      some "![](../nb/./img/x.png)" := rfl

/-- C8: when every scanned reference of a document is an absolute path
or an absolute URL (in particular when there is none), `replace_paths`
returns the document unchanged, for every output and notebook path. -/
theorem replace_paths_absolute_and_url_unchanged (output_path notebook_path : String)
    (md : List Char)
    (h : (find_paths_in_markdown md).all (fun r => is_skipped r.1) = true) :
    replace_paths_list output_path notebook_path md = some md := by
  unfold replace_paths_list
  apply replace_paths_go_skip
  intro r hr
  rw [List.mem_reverse] at hr
  exact List.all_eq_true.mp h r hr

/-- C8 (witness): a document whose two references are an absolute path
and an absolute URL is returned unchanged. -/
theorem replace_paths_absolute_and_url_unchanged_witness :
    (find_paths_in_markdown ("![](/abs.png)\n<img src=\"https://h/b.png\">".toList)).all
        (fun r => is_skipped r.1) = true ∧
      replace_paths_list "a/b" "c/d" ("![](/abs.png)\n<img src=\"https://h/b.png\">".toList) =
        some ("![](/abs.png)\n<img src=\"https://h/b.png\">".toList) :=
  ⟨by decide, replace_paths_absolute_and_url_unchanged "a/b" "c/d" _ (by decide)⟩

/-- C9: scanning `"![](a.png)\nsome text\n<img src=\"b.png\">"` yields
exactly the two references `"a.png"` (span 4..9) and `"b.png"`
(span 31..36), in document order. -/
theorem scan_markdown_and_html_references_with_spans :
    find_paths_in_markdown ("![](a.png)\nsome text\n<img src=\"b.png\">".toList) =
      [("a.png".toList, 4, 9), ("b.png".toList, 31, 36)] := rfl

/-- C10: for every markdown blob and every template with no `{`
character, `wrap_image` returns the template unchanged and never
errors, even with zero image references. -/
theorem wrap_image_placeholder_free_template_identity (md wrap : List Char)
    (h : '{' ∉ wrap) : wrap_image md wrap = Except.ok wrap := by
  unfold wrap_image split_template
  simp [split_template_fuel, split_on_of_not_mem _ _ h, build_start]

/-- C10 (witness): the theorem applied to a markdown blob with no
references and a brace-free template. -/
theorem wrap_image_placeholder_free_template_identity_witness :
    '{' ∉ "no placeholders".toList ∧
      wrap_image ("plain text".toList) ("no placeholders".toList) =
        Except.ok ("no placeholders".toList) :=
  ⟨by decide, wrap_image_placeholder_free_template_identity _ _ (by decide)⟩

end Jnp
